import Mathlib

/-!
Verification of the Pyfuncs repository (src/pyfuncs.hh): a shallow
embedding of the `range` (Counting Sequence) and `zip` (Element-wise
Combiner) iterator adaptors, together with proofs of the specified
iterator-contract properties.

Machine integers: `std::size_t` values are modelled as `Nat` restricted
to `[0, 2^64)`; the only arithmetic operation the code performs on them
is the post-increment `i_++`, modelled as `(i + 1) % 2^64`.
-/

/-- The modulus of `std::size_t` on the usual 64-bit platform. -/
def sizeTMod : Nat := 2 ^ 64

namespace Pyfuncs

/-- Iterator of `range` (src/pyfuncs.hh:24-54): fields `i_` (current
position) and `max_` (the bound, carried but unused by the operations). -/
structure RangeIterator where
  i_ : Nat
  max_ : Nat
deriving Repr, DecidableEq

/-- `range::Iterator::operator!=` (src/pyfuncs.hh:35-38): compares only
the `i_` fields. -/
def RangeIterator.ne (a b : RangeIterator) : Bool :=
  a.i_ != b.i_

/-- `range::Iterator::operator*` (src/pyfuncs.hh:40-43): returns `i_`. -/
def RangeIterator.deref (a : RangeIterator) : Nat :=
  a.i_

/-- `range::Iterator::operator++` (src/pyfuncs.hh:45-49): `i_++`
(modular `std::size_t` increment). -/
def RangeIterator.inc (a : RangeIterator) : RangeIterator :=
  { a with i_ := (a.i_ + 1) % sizeTMod }

/-- The `range` instance (src/pyfuncs.hh:22-80): immutable fields
`i_` (start) and `max_` (end). -/
structure Range where
  i_ : Nat
  max_ : Nat
deriving Repr, DecidableEq

/-- `range::range(i, max)` (src/pyfuncs.hh:57-61): `assert(i <= max)`
aborts construction when `i > max`; modelled as `none`. -/
def Range.make (i max : Nat) : Option Range :=
  if i ≤ max then some ⟨i, max⟩ else none

/-- `range::range(max)` (src/pyfuncs.hh:63-65): delegates to
`range(0, max)`. -/
def Range.make1 (max : Nat) : Option Range :=
  Range.make 0 max

/-- `range::begin` (src/pyfuncs.hh:67-70): `Iterator(i_, max_)`. -/
def Range.begin (r : Range) : RangeIterator :=
  ⟨r.i_, r.max_⟩

/-- `range::end` (src/pyfuncs.hh:72-75): `Iterator(max_, max_)`. -/
def Range.end_ (r : Range) : RangeIterator :=
  ⟨r.max_, r.max_⟩

/-- A range-based for loop over `range`, as the compiler expands it:
while `cur != stop`, visit `*cur` then `++cur`.  The loop is given
explicit fuel; it stops by itself as soon as `cur != stop` fails. -/
def RangeIterator.collect (cur stop : RangeIterator) : Nat → List Nat
  | 0 => []
  | fuel + 1 =>
    if cur.ne stop then cur.deref :: RangeIterator.collect cur.inc stop fuel
    else []

/-- The full output of one iteration pass over a `range` instance
(fuel `max_` always suffices as the loop exits via `operator!=`). -/
def Range.seq (r : Range) : List Nat :=
  RangeIterator.collect r.begin r.end_ r.max_

lemma RangeIterator.collect_eq_range' (e : Nat) (he : e < sizeTMod) :
    ∀ (fuel i : Nat), i ≤ e → e - i ≤ fuel →
      RangeIterator.collect ⟨i, e⟩ ⟨e, e⟩ fuel = List.range' i (e - i) := by
  intro fuel
  induction fuel with
  | zero =>
    intro i hie hfuel
    have : e - i = 0 := Nat.le_zero.mp hfuel
    simp [RangeIterator.collect, this]
  | succ fuel ih =>
    intro i hie hfuel
    rcases Nat.eq_or_lt_of_le hie with h | h
    · subst h
      simp [RangeIterator.collect, RangeIterator.ne]
    · have hne : RangeIterator.ne ⟨i, e⟩ ⟨e, e⟩ = true := by
        simp [RangeIterator.ne, Nat.ne_of_lt h]
      have hinc : (RangeIterator.inc ⟨i, e⟩ : RangeIterator) = ⟨i + 1, e⟩ := by
        have : i + 1 < sizeTMod := Nat.lt_of_le_of_lt h he
        simp [RangeIterator.inc, Nat.mod_eq_of_lt this]
      have hrec := ih (i + 1) h (by omega)
      have hsub : e - i = (e - (i + 1)) + 1 := by omega
      rw [RangeIterator.collect]
      rw [if_pos hne, hinc, hrec]
      rw [hsub, List.range'_succ]
      rfl

/-- C1: for `start ≤ end < 2^64`, iterating `range(start, end)` from
`begin()` to `end()` yields exactly the ascending integers
`start, start+1, …, end-1`, hence exactly `end - start` elements, and
`range(n, n)` yields the empty sequence. -/
theorem range_yields_ascending (s e : Nat) (hse : s ≤ e) (he : e < sizeTMod) :
    Range.make s e = some ⟨s, e⟩ ∧
    Range.seq ⟨s, e⟩ = List.range' s (e - s) ∧
    (Range.seq ⟨s, e⟩).length = e - s ∧
    (s = e → Range.seq ⟨s, e⟩ = []) := by
  refine ⟨by simp [Range.make, hse], ?_, ?_, ?_⟩
  · exact RangeIterator.collect_eq_range' e he e s hse (by omega)
  · show (RangeIterator.collect ⟨s, e⟩ ⟨e, e⟩ e).length = e - s
    rw [RangeIterator.collect_eq_range' e he e s hse (by omega)]
    simp
  · intro h
    subst h
    show RangeIterator.collect ⟨s, s⟩ ⟨s, s⟩ s = []
    rw [RangeIterator.collect_eq_range' s he s s (Nat.le_refl s) (by omega)]
    simp

/-- Witness for C1 at `range(2, 5)` and `range(3, 3)`. -/
theorem range_yields_ascending_witness :
    Range.seq ⟨2, 5⟩ = [2, 3, 4] ∧ Range.seq ⟨3, 3⟩ = [] := by
  have h1 := range_yields_ascending 2 5 (by decide) (by decide)
  have h2 := range_yields_ascending 3 3 (by decide) (by decide)
  exact ⟨h1.2.1.trans (by decide), h2.2.2.2 rfl⟩

/-- C3: constructing `range(start, end)` with `start > end` fails at
construction (the `assert(i <= max)` aborts): no instance is produced,
so no clamping and no iteration can occur. -/
theorem range_invalid_construction_fails (s e : Nat) (h : e < s) :
    Range.make s e = none := by
  simp only [Range.make, if_neg (by omega : ¬ s ≤ e)]

/-- Witness for C3 at `range(5, 2)`. -/
theorem range_invalid_construction_fails_witness : Range.make 5 2 = none :=
  range_invalid_construction_fails 5 2 (by decide)

/-- C4: two `range` cursors are unequal exactly when their `i_`
(position) fields differ; the `max_` field plays no role, so cursors of
different instances with different bounds compare on position alone. -/
theorem range_cursor_ne_iff_position (a b : RangeIterator) :
    (a.ne b = true ↔ a.i_ ≠ b.i_) ∧
    (∀ i m m' : Nat, RangeIterator.ne ⟨i, m⟩ ⟨i, m'⟩ = false) := by
  constructor
  · simp [RangeIterator.ne]
  · intro i m m'
    simp [RangeIterator.ne]

/-- Witness for C4: cursors of `range(0, 3)` and `range(2, 7)` at the
same position compare equal despite different bounds. -/
theorem range_cursor_ne_iff_position_witness :
    RangeIterator.ne ⟨2, 3⟩ ⟨2, 7⟩ = false :=
  (range_cursor_ne_iff_position ⟨2, 3⟩ ⟨2, 7⟩).2 2 3 7

/-- Counterexample to C7 as stated: at position `2^64 - 1` the
`std::size_t` increment `i_++` wraps to `0`, not to `(2^64 - 1) + 1`. -/
theorem range_inc_wraps_at_max :
    (RangeIterator.inc ⟨sizeTMod - 1, sizeTMod - 1⟩).i_ = 0 ∧
    (RangeIterator.inc ⟨sizeTMod - 1, sizeTMod - 1⟩).i_ ≠ (sizeTMod - 1) + 1 := by
  constructor
  · show (sizeTMod - 1 + 1) % sizeTMod = 0
    simp [sizeTMod]
  · show (sizeTMod - 1 + 1) % sizeTMod ≠ sizeTMod - 1 + 1
    simp [sizeTMod]

/-- C7 (amended): advancing a cursor whose position `p` satisfies
`p + 1 < 2^64` sets the position to exactly `p + 1`, with no bounds
check against `max_` (the bound is arbitrary, `p` may even exceed it). -/
theorem range_inc_adds_one (i m : Nat) (h : i + 1 < sizeTMod) :
    (RangeIterator.inc ⟨i, m⟩).i_ = i + 1 := by
  show (i + 1) % sizeTMod = i + 1
  exact Nat.mod_eq_of_lt h

/-- Witness for C7 at position 7 with bound 3 (past the bound: the
advance still just increments). -/
theorem range_inc_adds_one_witness : (RangeIterator.inc ⟨7, 3⟩).i_ = 8 :=
  range_inc_adds_one 7 3 (by decide)

/-- C8: dereferencing any `range` cursor is total and returns the
current position; in particular dereferencing the cursor returned by
`end()` succeeds and returns the bound `max_`. -/
theorem range_deref_total (it : RangeIterator) (r : Range) :
    it.deref = it.i_ ∧ (r.end_).deref = r.max_ :=
  ⟨rfl, rfl⟩

/-- Witness for C8 on `range(2, 5)`: dereferencing `end()` yields 5. -/
theorem range_deref_total_witness :
    (Range.end_ ⟨2, 5⟩).deref = 5 :=
  (range_deref_total (Range.end_ ⟨2, 5⟩) ⟨2, 5⟩).2

/-- Modelled from the spec: `min_size` (declared in `misc.hh`, which is
not part of `src/`) computes "`limit = min(size(c_0), …, size(c_{N-1}))`",
the minimum of the lengths of the given containers. -/
def min_size {α : Type} : List (List α) → Nat
  | [] => 0
  | [c] => c.length
  | c :: cs => min c.length (min_size cs)

/-- Iterator of `zip` (src/pyfuncs.hh:94-135): holds a reference to the
combiner's `arrays_` tuple — modelled as its identity `arraysId` (the
address) together with the referenced containers — and a position `i_`. -/
structure ZipIterator (α : Type) where
  arraysId : Nat
  arrays_ : List (List α)
  i_ : Nat
deriving Repr, DecidableEq

/-- `zip::Iterator::operator!=` (src/pyfuncs.hh:116-119):
`i_ != iter.i_ || &arrays_ != &iter.arrays_` (position or reference-tuple
address differs). -/
def ZipIterator.ne {α : Type} (a b : ZipIterator α) : Bool :=
  a.i_ != b.i_ || a.arraysId != b.arraysId

/-- `zip::Iterator::operator*` via `get<0>` (src/pyfuncs.hh:96-105,
121-124): assembles, in declaration order, a tuple of copies of
`std::get<M>(arrays_)[i_]`; an out-of-bounds access (undefined in C++)
is modelled as `none`. -/
def ZipIterator.deref {α : Type} (it : ZipIterator α) : List (Option α) :=
  it.arrays_.map (fun c => c.get? it.i_)

/-- `zip::Iterator::operator++` (src/pyfuncs.hh:126-130): `i_++`
(modular `std::size_t` increment); the reference tuple is untouched. -/
def ZipIterator.inc {α : Type} (it : ZipIterator α) : ZipIterator α :=
  { it with i_ := (it.i_ + 1) % sizeTMod }

/-- The `zip` instance (src/pyfuncs.hh:87-156): the stored reference
tuple `arrays_` — modelled as its identity `tupleId` (the address of the
member, unique per live instance) plus the referenced containers — and
`max_ = min_size(args...)`. -/
structure Zip (α : Type) where
  tupleId : Nat
  arrays_ : List (List α)
  max_ : Nat
deriving Repr, DecidableEq

/-- `zip::zip(args...)` (src/pyfuncs.hh:138-141): stores the references
and computes `max_ = min_size(args...)`; `id` is the fresh address of
the stored tuple. -/
def Zip.make {α : Type} (id : Nat) (args : List (List α)) : Zip α :=
  ⟨id, args, min_size args⟩

/-- `zip::begin` (src/pyfuncs.hh:143-146): `Iterator(arrays_, 0)`. -/
def Zip.begin {α : Type} (z : Zip α) : ZipIterator α :=
  ⟨z.tupleId, z.arrays_, 0⟩

/-- `zip::end` (src/pyfuncs.hh:148-151): `Iterator(arrays_, max_)`. -/
def Zip.end_ {α : Type} (z : Zip α) : ZipIterator α :=
  ⟨z.tupleId, z.arrays_, z.max_⟩

/-- A range-based for loop over `zip`, as the compiler expands it:
while `cur != stop`, visit `*cur` then `++cur`, with explicit fuel. -/
def ZipIterator.collect {α : Type} (cur stop : ZipIterator α) :
    Nat → List (List (Option α))
  | 0 => []
  | fuel + 1 =>
    if cur.ne stop then cur.deref :: ZipIterator.collect cur.inc stop fuel
    else []

/-- The full output of one iteration pass over a `zip` instance. -/
def Zip.seq {α : Type} (z : Zip α) : List (List (Option α)) :=
  ZipIterator.collect z.begin z.end_ z.max_

lemma min_size_le_length {α : Type} :
    ∀ (args : List (List α)) (c : List α), c ∈ args → min_size args ≤ c.length := by
  intro args
  induction args with
  | nil => intro c hc; cases hc
  | cons a as ih =>
    intro c hc
    cases as with
    | nil =>
      have hca : c = a := by simpa using hc
      subst hca
      exact Nat.le_refl _
    | cons a' as' =>
      cases hc with
      | head => exact Nat.min_le_left _ _
      | tail _ hc => exact Nat.le_trans (Nat.min_le_right _ _) (ih c hc)

lemma ZipIterator.collect_eq {α : Type} (id : Nat) (arrs : List (List α))
    (e : Nat) (he : e < sizeTMod) :
    ∀ (fuel i : Nat), i ≤ e → e - i ≤ fuel →
      ZipIterator.collect ⟨id, arrs, i⟩ ⟨id, arrs, e⟩ fuel =
        (List.range' i (e - i)).map (fun j => arrs.map (fun c => c.get? j)) := by
  intro fuel
  induction fuel with
  | zero =>
    intro i hie hfuel
    have : e - i = 0 := Nat.le_zero.mp hfuel
    simp [ZipIterator.collect, this]
  | succ fuel ih =>
    intro i hie hfuel
    rcases Nat.eq_or_lt_of_le hie with h | h
    · subst h
      simp [ZipIterator.collect, ZipIterator.ne]
    · have hne : ZipIterator.ne (⟨id, arrs, i⟩ : ZipIterator α) ⟨id, arrs, e⟩ = true := by
        simp [ZipIterator.ne, Nat.ne_of_lt h]
      have hinc : (ZipIterator.inc ⟨id, arrs, i⟩ : ZipIterator α) = ⟨id, arrs, i + 1⟩ := by
        have : i + 1 < sizeTMod := Nat.lt_of_le_of_lt h he
        simp [ZipIterator.inc, Nat.mod_eq_of_lt this]
      have hrec := ih (i + 1) h (by omega)
      have hsub : e - i = (e - (i + 1)) + 1 := by omega
      rw [ZipIterator.collect]
      rw [if_pos hne, hinc, hrec]
      rw [hsub, List.range'_succ]
      rfl

/-- C2: for `N ≥ 1` containers with `limit = min_size(args) < 2^64`,
iterating `zip(args...)` yields exactly `limit` tuples, and tuple `i` is
the list of copies `(c_0[i], …, c_{N-1}[i])` in declaration order (each
access in bounds, hence `some`); any empty container yields the empty
sequence. -/
theorem zip_yields_min_tuples {α : Type} (args : List (List α)) (id : Nat)
    (hN : args ≠ []) (hW : min_size args < sizeTMod) :
    Zip.seq (Zip.make id args) =
      (List.range (min_size args)).map (fun i => args.map (fun c => c.get? i)) ∧
    (Zip.seq (Zip.make id args)).length = min_size args ∧
    (∀ i, i < min_size args → ∀ c, c ∈ args → (c.get? i).isSome = true) ∧
    ((∃ c, c ∈ args ∧ c = []) → Zip.seq (Zip.make id args) = []) := by
  have hmain : Zip.seq (Zip.make id args) =
      (List.range (min_size args)).map (fun i => args.map (fun c => c.get? i)) := by
    show ZipIterator.collect ⟨id, args, 0⟩ ⟨id, args, min_size args⟩ (min_size args) = _
    rw [ZipIterator.collect_eq id args (min_size args) hW (min_size args) 0
      (Nat.zero_le _) (by omega)]
    rw [Nat.sub_zero, List.range_eq_range']
  refine ⟨hmain, ?_, ?_, ?_⟩
  · rw [hmain]; simp
  · intro i hi c hc
    have hlt : i < c.length := Nat.lt_of_lt_of_le hi (min_size_le_length args c hc)
    rw [List.get?_eq_getElem?, List.getElem?_eq_getElem hlt]
    rfl
  · rintro ⟨c, hc, hnil⟩
    have h0 : min_size args = 0 := by
      have := min_size_le_length args c hc
      rw [hnil] at this
      simpa using this
    rw [hmain, h0]
    simp

/-- Witness for C2: `zip([10,20,30], [7,8])` yields exactly the two
tuples `(10,7)` and `(20,8)`, the tail of the longer container dropped. -/
theorem zip_yields_min_tuples_witness :
    Zip.seq (Zip.make 0 [[10, 20, 30], ([7, 8] : List Nat)]) =
      [[some 10, some 7], [some 20, some 8]] :=
  ((zip_yields_min_tuples [[10, 20, 30], [7, 8]] 0 (by decide)
    (by decide)).1).trans (by decide)

/-- C5: `zip` cursor inequality holds iff the positions differ or the
reference-tuple identities differ; a cursor carrying the identity of a
combiner's own tuple (as every cursor advanced from its `begin()` does)
is unequal to that combiner's `end()` exactly while its position differs
from `limit`. -/
theorem zip_cursor_ne_spec {α : Type} (a b : ZipIterator α)
    (z : Zip α) (it : ZipIterator α) (hit : it.arraysId = z.tupleId) :
    (a.ne b = true ↔ (a.i_ ≠ b.i_ ∨ a.arraysId ≠ b.arraysId)) ∧
    (it.ne z.end_ = true ↔ it.i_ ≠ z.max_) := by
  constructor
  · simp [ZipIterator.ne, Bool.or_eq_true]
  · simp [ZipIterator.ne, Zip.end_, hit]

/-- Witness for C5: in `zip([5,6])` a cursor at position 2 carrying the
combiner's tuple identity differs from `end()` exactly because `2 ≠ 1`. -/
theorem zip_cursor_ne_spec_witness :
    ZipIterator.ne ⟨3, [[5, 6]], 2⟩ (Zip.end_ (Zip.make 3 [([5] : List Nat), [6]])) = true :=
  (zip_cursor_ne_spec ⟨3, [[5, 6]], 2⟩ ⟨3, [[5, 6]], 2⟩
    (Zip.make 3 [[5], [6]]) ⟨3, [[5, 6]], 2⟩ rfl).2.mpr (by decide)

/-- C9: `begin()` and `end()` of one combiner carry the identity of the
same stored reference tuple, advancing preserves that identity, and
`begin() != end()` holds iff `limit` (`max_`) is nonzero. -/
theorem zip_begin_end_same_tuple {α : Type} (z : Zip α) (it : ZipIterator α) :
    z.begin.arraysId = z.tupleId ∧
    z.end_.arraysId = z.tupleId ∧
    (it.inc).arraysId = it.arraysId ∧
    (z.begin.ne z.end_ = true ↔ z.max_ ≠ 0) := by
  refine ⟨rfl, rfl, rfl, ?_⟩
  show ((0 != z.max_) || (z.tupleId != z.tupleId)) = true ↔ z.max_ ≠ 0
  simp only [bne_self_eq_false, Bool.or_false, bne_iff_ne]
  exact ne_comm

/-- Witness for C9 on `zip([5])`: `begin() != end()` as `limit = 1 ≠ 0`. -/
theorem zip_begin_end_same_tuple_witness :
    ZipIterator.ne (Zip.begin (Zip.make 0 [([5] : List Nat)]))
      (Zip.end_ (Zip.make 0 [[5]])) = true :=
  (zip_begin_end_same_tuple (Zip.make 0 [[5]])
    (Zip.begin (Zip.make 0 [[5]]))).2.2.2.mpr (by decide)

/-- C10: cursors of two distinct combiner instances (distinct stored
reference tuples, hence distinct addresses) always compare unequal,
whatever their positions and even over the same containers, because
`operator!=` compares the reference-tuple addresses. -/
theorem zip_distinct_instances_cursors_ne {α : Type} (z₁ z₂ : Zip α)
    (hz : z₁.tupleId ≠ z₂.tupleId) (it₁ it₂ : ZipIterator α)
    (h₁ : it₁.arraysId = z₁.tupleId) (h₂ : it₂.arraysId = z₂.tupleId) :
    it₁.ne it₂ = true := by
  simp [ZipIterator.ne, h₁, h₂, hz]

/-- Witness for C10: the `begin()` cursors of two combiners built over
the very same containers, both at position 0, compare unequal. -/
theorem zip_distinct_instances_cursors_ne_witness :
    ZipIterator.ne (Zip.begin (Zip.make 0 [([1, 2] : List Nat)]))
      (Zip.begin (Zip.make 1 [[1, 2]])) = true :=
  zip_distinct_instances_cursors_ne (Zip.make 0 [[1, 2]]) (Zip.make 1 [[1, 2]])
    (by decide) _ _ rfl rfl

/-- `range::begin` as a method call on the instance: the body reads the
`const` fields and assigns nothing, so the instance comes back as it
went in. -/
def Range.beginM (r : Range) : RangeIterator × Range :=
  (⟨r.i_, r.max_⟩, r)

/-- `range::end` as a method call on the instance. -/
def Range.endM (r : Range) : RangeIterator × Range :=
  (⟨r.max_, r.max_⟩, r)

/-- One complete iteration pass over a `range` instance: request
`begin()` and `end()` afresh, run the loop, return the output together
with the instance as it stands afterwards. -/
def Range.passM (r : Range) : List Nat × Range :=
  let b := r.beginM
  let e := b.2.endM
  (RangeIterator.collect b.1 e.1 e.2.max_, e.2)

/-- `zip::begin` as a method call on the instance. -/
def Zip.beginM {α : Type} (z : Zip α) : ZipIterator α × Zip α :=
  (⟨z.tupleId, z.arrays_, 0⟩, z)

/-- `zip::end` as a method call on the instance. -/
def Zip.endM {α : Type} (z : Zip α) : ZipIterator α × Zip α :=
  (⟨z.tupleId, z.arrays_, z.max_⟩, z)

/-- One complete iteration pass over a `zip` instance. -/
def Zip.passM {α : Type} (z : Zip α) : List (List (Option α)) × Zip α :=
  let b := z.beginM
  let e := b.2.endM
  (ZipIterator.collect b.1 e.1 e.2.max_, e.2)

/-- C6: a complete pass leaves a `range` or `zip` instance exactly as it
was (begin/end never consume or mutate it), so a second complete pass
over the resulting instance produces the identical output sequence. -/
theorem pass_restartable {α : Type} (r : Range) (z : Zip α) :
    (r.passM.2 = r ∧ r.passM.2.passM.1 = r.passM.1) ∧
    (z.passM.2 = z ∧ z.passM.2.passM.1 = z.passM.1) :=
  ⟨⟨rfl, rfl⟩, ⟨rfl, rfl⟩⟩

/-- Witness for C6 on `range(2, 5)` and `zip([5,6])`. -/
theorem pass_restartable_witness :
    (Range.passM ⟨2, 5⟩).2.passM.1 = (Range.passM ⟨2, 5⟩).1 ∧
    (Zip.passM (Zip.make 0 [([5, 6] : List Nat)])).2.passM.1 =
      (Zip.passM (Zip.make 0 [[5, 6]])).1 :=
  ⟨(pass_restartable ⟨2, 5⟩ (Zip.make 0 [([5, 6] : List Nat)])).1.2,
   (pass_restartable ⟨2, 5⟩ (Zip.make 0 [([5, 6] : List Nat)])).2.2⟩

end Pyfuncs
